import Mathlib

/-!
Verification development for the mysql slow-query log monitor
(slowqueries.py): a shallow embedding of its pattern library, stream
reassembler, heuristic engine and dispatcher, together with theorems
checking the specification's claims.

Modelling conventions: input buffers, lines and regex captures are lists of
characters; Python floats are rationals; Python functions that can raise an
exception return Option, with none standing for the raised exception.
-/

namespace SlowQueries

/-- Whitespace characters of the regex class backslash-s, ASCII range
(space, tab, newline, carriage return, vertical tab, form feed). -/
def isWS (c : Char) : Bool :=
  c = ' ' || c = '\t' || c = '\n' || c = '\r' || c = '\x0b' || c = '\x0c'

/-- Numeric value of a string of decimal digits, most significant first. -/
def natOfDigits (s : List Char) : ℕ :=
  s.foldl (fun n c => 10 * n + (c.toNat - 48)) 0

/-- Python int(s) restricted to the strings the header pattern captures for
the row-count fields: succeeds exactly on a nonempty all-digit string. -/
def parseNat (s : List Char) : Option ℕ :=
  if s ≠ [] ∧ s.all Char.isDigit then some (natOfDigits s) else none

/-- Python float(s) restricted to the shapes occurring in this program:
a nonempty digit run, optionally followed by a dot and a digit run. -/
def parseFloat (s : List Char) : Option ℚ :=
  let a := s.takeWhile Char.isDigit
  let r := s.dropWhile Char.isDigit
  if a = [] then none
  else
    match r with
    | [] => some ((natOfDigits a : ℚ))
    | '.' :: b =>
        if b.all Char.isDigit then
          some ((natOfDigits a : ℚ) + (natOfDigits b : ℚ) / (10 : ℚ) ^ b.length)
        else none
    | _ => none

/-- Consume an exact literal from the front of the input, returning the rest. -/
def dropLit : List Char → List Char → Option (List Char)
  | [], s => some s
  | _ :: _, [] => none
  | c :: cs, d :: ds => if c = d then dropLit cs ds else none

/-- Regex backslash-s-plus: at least one whitespace character, consuming the
maximal whitespace run (the literal that follows it in every use site starts
with a non-whitespace character, so maximal munch is faithful). -/
def ws1 : List Char → Option (List Char)
  | [] => none
  | c :: cs => if isWS c then some (cs.dropWhile isWS) else none

def startsWithL : List Char → List Char → Bool
  | [], _ => true
  | _ :: _, [] => false
  | c :: cs, d :: ds => c = d && startsWithL cs ds

/-- Substring test, used for the " @ " required inside the user-host capture. -/
def containsSub (pat : List Char) : List Char → Bool
  | [] => startsWithL pat []
  | c :: cs => startsWithL pat (c :: cs) || containsSub pat cs

def splitLinesAux : List Char → List Char → List (List Char)
  | [], acc => [acc.reverse]
  | c :: cs, acc =>
      if c = '\n' then acc.reverse :: splitLinesAux cs []
      else splitLinesAux cs (c :: acc)

/-- Split a buffer at newline characters: the line structure that the
re.MULTILINE anchors of HEADER_REGEX see. -/
def splitLines (s : List Char) : List (List Char) := splitLinesAux s []

/-- TIME_PATTERN applied to one full line: a hash, whitespace, the literal
Time colon, whitespace, a six-digit date capture, whitespace, and a time
capture of one-or-two-digit fields separated by colons, ending the line.
Returns the date and time captures. -/
def parseTimeLine (l : List Char) : Option (List Char × List Char) := do
  let r1 ← dropLit ['#'] l
  let r2 ← ws1 r1
  let r3 ← dropLit "Time:".toList r2
  let r4 ← ws1 r3
  let d := r4.takeWhile Char.isDigit
  let r5 := r4.dropWhile Char.isDigit
  if d.length = 6 then
    let r6 ← ws1 r5
    let hh := r6.takeWhile Char.isDigit
    let r7 := r6.dropWhile Char.isDigit
    if hh.length = 1 ∨ hh.length = 2 then
      let r8 ← dropLit [':'] r7
      let mm := r8.takeWhile Char.isDigit
      let r9 := r8.dropWhile Char.isDigit
      if mm.length = 1 ∨ mm.length = 2 then
        let r10 ← dropLit [':'] r9
        let ss := r10.takeWhile Char.isDigit
        let r11 := r10.dropWhile Char.isDigit
        if (ss.length = 1 ∨ ss.length = 2) ∧ r11 = [] then
          some (d, hh ++ ':' :: mm ++ ':' :: ss)
        else none
      else none
    else none
  else none

/-- USER_HOST_PATTERN applied to one full line: the literal prefix, then a
capture of the rest of the line, which must contain " @ ". -/
def parseUserHostLine (l : List Char) : Option (List Char) := do
  let r ← dropLit "# User@Host: ".toList l
  if containsSub " @ ".toList r then some r else none

/-- One decimal capture of QUERY_STATS_PATTERN: a nonempty digit run, a dot,
a nonempty digit run.  Returns the capture and the rest of the line. -/
def parseDecCap (s : List Char) : Option (List Char × List Char) :=
  let d1 := s.takeWhile Char.isDigit
  let r1 := s.dropWhile Char.isDigit
  if d1 = [] then none
  else
    match r1 with
    | c :: r2 =>
        if c = '.' then
          let d2 := r2.takeWhile Char.isDigit
          let r3 := r2.dropWhile Char.isDigit
          if d2 = [] then none else some (d1 ++ '.' :: d2, r3)
        else none
    | [] => none

/-- One integer capture of QUERY_STATS_PATTERN: a nonempty digit run. -/
def parseNatCap (s : List Char) : Option (List Char × List Char) :=
  let d := s.takeWhile Char.isDigit
  let r := s.dropWhile Char.isDigit
  if d = [] then none else some (d, r)

/-- QUERY_STATS_PATTERN applied to one full line: Query_time, Lock_time,
Rows_sent and Rows_examined captures in that order, the line ending right
after the last capture.  Returns the four captures. -/
def parseStatsLine (l : List Char) :
    Option (List Char × List Char × List Char × List Char) :=
  (dropLit "# Query_time: ".toList l).bind fun r1 =>
  (parseDecCap r1).bind fun p1 =>
  (ws1 p1.2).bind fun r3 =>
  (dropLit "Lock_time: ".toList r3).bind fun r4 =>
  (parseDecCap r4).bind fun p2 =>
  (ws1 p2.2).bind fun r6 =>
  (dropLit "Rows_sent: ".toList r6).bind fun r7 =>
  (parseNatCap r7).bind fun p3 =>
  (ws1 p3.2).bind fun r9 =>
  (dropLit "Rows_examined: ".toList r9).bind fun r10 =>
  (parseNatCap r10).bind fun p4 =>
  if p4.2 = [] then some (p1.1, p2.1, p3.1, p4.1) else none

/-- The groupdict of a HEADER_REGEX match: the seven named captures. -/
structure LogHeader where
  date : List Char
  time : List Char
  user_host : List Char
  query_seconds : List Char
  lock_time : List Char
  rows_sent : List Char
  rows_examined : List Char
  deriving DecidableEq, Repr

/-- HEADER_REGEX.search on the line decomposition of a buffer: the leftmost
three consecutive lines matching the time, user-host and stats patterns.
The first two lines of a triple are necessarily newline-terminated in the
original buffer because a third line follows them. -/
def findHeaderInLines : List (List Char) → Option LogHeader
  | l1 :: l2 :: l3 :: rest =>
      match parseTimeLine l1, parseUserHostLine l2, parseStatsLine l3 with
      | some dt, some uh, some caps =>
          some ⟨dt.1, dt.2, uh, caps.1, caps.2.1, caps.2.2.1, caps.2.2.2⟩
      | _, _, _ => findHeaderInLines (l2 :: l3 :: rest)
  | _ => none

/-- HEADER_REGEX.search on a raw buffer. -/
def headerSearch (s : List Char) : Option LogHeader :=
  findHeaderInLines (splitLines s)

/-- Split a buffer at its first semicolon: returns the characters before it
(none of which is a semicolon) and the characters after it. -/
def splitSemi : List Char → Option (List Char × List Char)
  | [] => none
  | c :: cs =>
      if c = ';' then some ([], cs)
      else
        match splitSemi cs with
        | none => none
        | some (a, b) => some (c :: a, b)

/-- One attempt of QUERY_REGEX at a line-start position: optional leading
whitespace (which may span newlines), then at least one non-semicolon
character, then a semicolon that must sit at an end of line.  The capture
drops the maximal leading whitespace run, backing off by one character when
everything before the semicolon is whitespace (the plus quantifier needs at
least one character).  Returns the capture and the unconsumed suffix. -/
def tryMatchAt (s : List Char) : Option (List Char × List Char) :=
  match splitSemi s with
  | none => none
  | some (pre, rest) =>
      if pre = [] then none
      else if rest = [] ∨ rest.head? = some '\n' then
        let r := (pre.takeWhile isWS).length
        some (pre.drop (min r (pre.length - 1)) ++ [';'], rest)
      else none

/-- QUERY_REGEX.finditer: scan left to right, attempting a match at every
position where the multiline caret can match, resuming after the end of each
successful match.  Fuel-indexed; the fuel never runs out when it starts at
the buffer length, since every step consumes at least one character. -/
def finditerAux : ℕ → List Char → Bool → List (List Char)
  | 0, _, _ => []
  | _ + 1, [], _ => []
  | n + 1, c :: cs, atStart =>
      if atStart then
        match tryMatchAt (c :: cs) with
        | some (cap, rest) => cap :: finditerAux n rest false
        | none => finditerAux n cs (c = '\n')
      else finditerAux n cs (c = '\n')

/-- All statement matches of QUERY_REGEX in a buffer, in order. -/
def queryMatches (s : List Char) : List (List Char) :=
  finditerAux s.length s true

/-- IGNORE_REGEX.match on a statement capture: optional leading whitespace,
then either the literal use-plus-space followed by a line whose last
character is a semicolon, or the literal SET-timestamp prefix followed by a
nonempty digit run, a semicolon and an end of line.  Case-sensitive: the
ignore patterns are compiled without the IGNORECASE flag. -/
def isIgnorable (s : List Char) : Bool :=
  let t := s.dropWhile isWS
  (match dropLit "use ".toList t with
   | some r =>
       let seg := r.takeWhile (fun c => c ≠ '\n')
       seg.getLast? == some ';'
   | none => false)
  ||
  (match dropLit "SET timestamp=".toList t with
   | some r =>
       let d := r.takeWhile Char.isDigit
       let r2 := r.dropWhile Char.isDigit
       !d.isEmpty &&
       (match r2 with
        | ';' :: tail => tail.isEmpty || tail.head? == some '\n'
        | _ => false)
   | none => false)

/-- Upper-bound test of one range entry of Heuristic.check: val < max when a
maximum is present, vacuously true for the unbounded critical range. -/
def belowUpper (val : ℚ) : Option ℚ → Bool
  | some m => decide (val < m)
  | none => true

/-- Heuristic.init: the range table, built lowest severity first and then
reversed, so the highest boundary is checked first. -/
def mkRanges (b0 b1 b2 b3 b4 : ℚ) : List (String × ℚ × Option ℚ) :=
  [("critical", b4, none), ("error", b3, some b4), ("warning", b2, some b3),
   ("info", b1, some b2), ("debug", b0, some b1)]

/-- Heuristic.check: return the name of the first range whose lower bound is
at most val and whose upper bound, when present, exceeds val; none when no
range matches. -/
def checkRanges : List (String × ℚ × Option ℚ) → ℚ → Option String
  | [], _ => none
  | (name, mn, mx) :: rest, val =>
      if decide (mn ≤ val) && belowUpper val mx then some name
      else checkRanges rest val

/-- The severity order of the claimed monotonicity property: no-finding
below debug below info below warning below error below critical. -/
def sevRank : Option String → ℕ
  | none => 0
  | some s =>
      if s = "debug" then 1
      else if s = "info" then 2
      else if s = "warning" then 3
      else if s = "error" then 4
      else if s = "critical" then 5
      else 0

/-- The NOTIFICATION_LEVELS dictionary. -/
def notificationLevels : List (String × ℕ) :=
  [("debug", 0), ("info", 1), ("warning", 2), ("error", 3), ("critical", 4)]

/-- Dictionary lookup of a level name in NOTIFICATION_LEVELS. -/
def levelRank (s : String) : Option ℕ :=
  notificationLevels.lookup s

/-- process_event: run every registered heuristic on the pair; for each
result that is a level name whose rank reaches the threshold, forward the
(name, level) finding.  A level name missing from the dictionary would raise
a KeyError, modelled as none for the whole call. -/
def processEvent (hs : List (String × (LogHeader → List Char → Option String)))
    (threshold : ℕ) (hd : LogHeader) (ev : List Char) :
    Option (List (String × String)) :=
  match hs with
  | [] => some []
  | (n, h) :: rest =>
      match h hd ev with
      | none => processEvent rest threshold hd ev
      | some lv =>
          match levelRank lv with
          | none => none
          | some r =>
              match processEvent rest threshold hd ev with
              | none => none
              | some tl => some (if threshold ≤ r then (n, lv) :: tl else tl)

/-- SlowQuery.calculate_val: float of the query_seconds capture. -/
def SlowQuery_calc (hd : LogHeader) : Option ℚ :=
  parseFloat hd.query_seconds

/-- TooManyRowsReturned.calculate_val: int of the rows_sent capture. -/
def TooManyRowsReturned_calc (hd : LogHeader) : Option ℚ :=
  (parseNat hd.rows_sent).map (fun n => (n : ℚ))

/-- TooManyRowsExamined.calculate_val: int of the rows_examined capture. -/
def TooManyRowsExamined_calc (hd : LogHeader) : Option ℚ :=
  (parseNat hd.rows_examined).map (fun n => (n : ℚ))

/-- RatioOfExaminedRowsTooHigh.calculate_val: when int of rows_sent is
positive, int of rows_examined divided by float of rows_sent; otherwise 0. -/
def RatioOfExaminedRows_calc (hd : LogHeader) : Option ℚ := do
  let s ← parseNat hd.rows_sent
  if 0 < s then do
    let e ← parseNat hd.rows_examined
    let sf ← parseFloat hd.rows_sent
    some ((e : ℚ) / sf)
  else
    some 0

/-- LongLockTime.calculate_val: float of the lock_time capture. -/
def LongLockTime_calc (hd : LogHeader) : Option ℚ :=
  parseFloat hd.lock_time

/-- The mutable state of the process_input loop: the working buffer and the
active header. -/
structure ReState where
  lines : List Char
  currentHeader : Option LogHeader
  deriving DecidableEq, Repr

/-- One iteration of the process_input loop on a newly read line: append the
line to the buffer, search for a header (which, when found, becomes the
active header and clears the buffer); otherwise, when a header is active,
find all statement matches, emitting each non-ignorable one, and clear the
buffer exactly when at least one statement matched; otherwise keep the
appended buffer.  Returns the new state and the (header, event) pairs
handed to process_event, in order. -/
def processLine (st : ReState) (line : List Char) :
    ReState × List (LogHeader × List Char) :=
  let tmp := st.lines ++ line
  match headerSearch tmp with
  | some h => (⟨[], some h⟩, [])
  | none =>
      match st.currentHeader with
      | some h =>
          let ms := queryMatches tmp
          if ms = [] then (⟨tmp, some h⟩, [])
          else (⟨[], some h⟩, (ms.filter (fun q => !isIgnorable q)).map (fun q => (h, q)))
      | none => (⟨tmp, none⟩, [])

/-- The process_input loop over a list of input lines, collecting every
(header, event) pair handed to process_event. -/
def runLines : ReState → List (List Char) → ReState × List (LogHeader × List Char)
  | st, [] => (st, [])
  | st, l :: ls =>
      let p := processLine st l
      let q := runLines p.1 ls
      (q.1, p.2 ++ q.2)

/-! ## Helper lemmas -/

theorem checkRanges_mkRanges (b0 b1 b2 b3 b4 m : ℚ) :
    checkRanges (mkRanges b0 b1 b2 b3 b4) m =
      (if b4 ≤ m then some "critical"
       else if b3 ≤ m then some "error"
       else if b2 ≤ m then some "warning"
       else if b1 ≤ m then some "info"
       else if b0 ≤ m then some "debug"
       else none) := by
  simp only [mkRanges, checkRanges, belowUpper, Bool.and_true]
  by_cases h4 : b4 ≤ m
  · simp [h4]
  · by_cases h3 : b3 ≤ m
    · simp [h4, h3, lt_of_not_le h4]
    · by_cases h2 : b2 ≤ m
      · simp [h4, h3, h2, lt_of_not_le h3]
      · by_cases h1 : b1 ≤ m
        · simp [h4, h3, h2, h1, lt_of_not_le h2]
        · by_cases h0 : b0 ≤ m
          · simp [h4, h3, h2, h1, h0, lt_of_not_le h1]
          · simp [h4, h3, h2, h1, h0]

theorem sevRank_none_eq : sevRank none = 0 := rfl

theorem sevRank_debug_eq : sevRank (some "debug") = 1 := rfl

theorem sevRank_info_eq : sevRank (some "info") = 2 := rfl

theorem sevRank_warning_eq : sevRank (some "warning") = 3 := rfl

theorem sevRank_error_eq : sevRank (some "error") = 4 := rfl

theorem sevRank_critical_eq : sevRank (some "critical") = 5 := rfl

/-! ## Claims about the heuristic range check -/

/-- Claim C1: for every heuristic configured with five ascending boundary
values and every metric value, the range check returns exactly one of
no-finding, debug, info, warning, error, critical according to the half-open
ranges, checked from the highest boundary down: critical on metric at least
b4, error on the interval from b3 to b4, warning from b2 to b3, info from b1
to b2, debug from b0 to b1, and no-finding below b0. -/
theorem heuristic_check_half_open_ranges (b0 b1 b2 b3 b4 m : ℚ)
    (h01 : b0 ≤ b1) (h12 : b1 ≤ b2) (h23 : b2 ≤ b3) (h34 : b3 ≤ b4) :
    checkRanges (mkRanges b0 b1 b2 b3 b4) m =
      (if b4 ≤ m then some "critical"
       else if b3 ≤ m then some "error"
       else if b2 ≤ m then some "warning"
       else if b1 ≤ m then some "info"
       else if b0 ≤ m then some "debug"
       else none) :=
  checkRanges_mkRanges b0 b1 b2 b3 b4 m

theorem heuristic_check_half_open_ranges_witness :
    ((1 : ℚ) ≤ 2 ∧ (2 : ℚ) ≤ 3 ∧ (3 : ℚ) ≤ 4 ∧ (4 : ℚ) ≤ 5) ∧
    checkRanges (mkRanges 1 2 3 4 5) 4 =
      (if (5 : ℚ) ≤ 4 then some "critical"
       else if (4 : ℚ) ≤ 4 then some "error"
       else if (3 : ℚ) ≤ 4 then some "warning"
       else if (2 : ℚ) ≤ 4 then some "info"
       else if (1 : ℚ) ≤ 4 then some "debug"
       else none) :=
  ⟨by decide,
   heuristic_check_half_open_ranges 1 2 3 4 5 4 (by decide) (by decide)
     (by decide) (by decide)⟩

/-- Claim C5: for every heuristic configured with five ascending boundaries
and metric values m1 at most m2, the severity returned for m2 is at least
the severity returned for m1 under the order no-finding, debug, info,
warning, error, critical. -/
theorem heuristic_check_monotone (b0 b1 b2 b3 b4 m1 m2 : ℚ)
    (h01 : b0 ≤ b1) (h12 : b1 ≤ b2) (h23 : b2 ≤ b3) (h34 : b3 ≤ b4)
    (hm : m1 ≤ m2) :
    sevRank (checkRanges (mkRanges b0 b1 b2 b3 b4) m1) ≤
      sevRank (checkRanges (mkRanges b0 b1 b2 b3 b4) m2) := by
  rw [checkRanges_mkRanges, checkRanges_mkRanges]
  split_ifs <;>
    simp only [sevRank_none_eq, sevRank_debug_eq, sevRank_info_eq,
      sevRank_warning_eq, sevRank_error_eq, sevRank_critical_eq] <;>
    first
      | omega
      | linarith

theorem heuristic_check_monotone_witness :
    ((1 : ℚ) ≤ 2 ∧ (2 : ℚ) ≤ 3 ∧ (3 : ℚ) ≤ 4 ∧ (4 : ℚ) ≤ 5 ∧ (1 : ℚ) ≤ 100) ∧
    sevRank (checkRanges (mkRanges 1 2 3 4 5) 1) ≤
      sevRank (checkRanges (mkRanges 1 2 3 4 5) 100) :=
  ⟨by decide,
   heuristic_check_monotone 1 2 3 4 5 1 100 (by decide) (by decide)
     (by decide) (by decide) (by decide)⟩

/-! ## Concrete artifacts used by witnesses -/

/-- The header parsed from the example block of the log format. -/
def hdr0 : LogHeader :=
  ⟨"121228".toList, "15:24:25".toList, "user[db] @ host [10.10.10.10]".toList,
   "0.000255".toList, "0.000044".toList, "590".toList, "590".toList⟩

/-- A distinct concrete header, used as a previously active header. -/
def hdrA : LogHeader :=
  ⟨"130101".toList, "1:2:3".toList, "a @ b".toList,
   "9.5".toList, "0.1".toList, "1".toList, "2".toList⟩

/-- A concrete header whose rows-sent field is 0 and rows-examined is 9. -/
def hdrZ : LogHeader :=
  ⟨"121228".toList, "15:24:25".toList, "a @ b".toList,
   "1.5".toList, "0.1".toList, "0".toList, "9".toList⟩

/-- The first two lines of the example header block. -/
def exTwoLines : List Char :=
  ("# Time: 121228 15:24:25\n# User@Host: user[db] @ host [10.10.10.10]\n").toList

/-- The stats line of the example header block, newline-terminated. -/
def exStatsLine : List Char :=
  ("# Query_time: 0.000255  Lock_time: 0.000044 Rows_sent: 590  Rows_examined: 590\n").toList

/-! ## Claims about the stream reassembler's header handling -/

/-- Claim C2: whenever the header pattern matches the buffer with the new
line appended, the whole accumulated buffer is discarded and the matched
header becomes the active header, with no (header, event) pair emitted; in
particular a second complete header block arriving before any statement
replaces the first active header, which never receives an event. -/
theorem header_match_resets_buffer (st : ReState) (line : List Char)
    (h : LogHeader) (hm : headerSearch (st.lines ++ line) = some h) :
    processLine st line = (⟨[], some h⟩, []) := by
  simp only [processLine, hm]

theorem header_match_resets_buffer_witness :
    headerSearch ((⟨exTwoLines, some hdrA⟩ : ReState).lines ++ exStatsLine) = some hdr0 ∧
    processLine ⟨exTwoLines, some hdrA⟩ exStatsLine = (⟨[], some hdr0⟩, []) :=
  ⟨by decide, header_match_resets_buffer ⟨exTwoLines, some hdrA⟩ exStatsLine hdr0 (by decide)⟩

/-- Claim C9: when no header matches the appended buffer, the buffer is
cleared exactly when a header is active and at least one statement matched
(discarding any trailing partial statement text), and is retained as the old
buffer with the line appended when no header is active or no statement
matched. -/
theorem buffer_retention_policy (st : ReState) (line : List Char) :
    (headerSearch (st.lines ++ line) = none → st.currentHeader ≠ none →
      queryMatches (st.lines ++ line) ≠ [] → (processLine st line).1.lines = []) ∧
    (headerSearch (st.lines ++ line) = none →
      (st.currentHeader = none ∨ queryMatches (st.lines ++ line) = []) →
      (processLine st line).1.lines = st.lines ++ line) := by
  constructor
  · intro hh hcur hq
    cases hch : st.currentHeader with
    | none => exact absurd hch hcur
    | some h => simp only [processLine, hh, hch, if_neg hq]
  · intro hh hd
    rcases hd with hnone | hq
    · simp [processLine, hh, hnone]
    · cases hch : st.currentHeader with
      | none => simp [processLine, hh, hch]
      | some h => simp [processLine, hh, hch, hq]

theorem buffer_retention_policy_witness :
    (headerSearch ((⟨[], some hdr0⟩ : ReState).lines ++ "SELECT 1;\nSELECT ".toList) = none ∧
      (⟨[], some hdr0⟩ : ReState).currentHeader ≠ none ∧
      queryMatches ((⟨[], some hdr0⟩ : ReState).lines ++ "SELECT 1;\nSELECT ".toList) ≠ []) ∧
    (processLine ⟨[], some hdr0⟩ ("SELECT 1;\nSELECT ".toList)).1.lines = [] :=
  ⟨⟨by decide, by decide, by decide⟩,
   (buffer_retention_policy ⟨[], some hdr0⟩ ("SELECT 1;\nSELECT ".toList)).1
     (by decide) (by decide) (by decide)⟩

/-! ## Claim about the ratio heuristic -/

theorem parseFloat_of_parseNat (x : List Char) (n : ℕ)
    (h : parseNat x = some n) : parseFloat x = some ((n : ℚ)) := by
  unfold parseNat at h
  split_ifs at h with hcond
  · have hall : ∀ a ∈ x, Char.isDigit a := by
      have := hcond.2
      simpa [List.all_eq_true] using this
    have hn : natOfDigits x = n := by injection h
    simp only [parseFloat, List.takeWhile_eq_self_iff.mpr hall,
      List.dropWhile_eq_nil_iff.mpr hall]
    simp [hcond.1, hn]

/-- Claim C7: the ratio-of-examined-to-returned heuristic computes metric 0
whenever the rows-sent field parses to 0, regardless of rows-examined, and
computes rows-examined divided by rows-sent whenever rows-sent is positive;
it never divides by zero. -/
theorem ratio_heuristic_safe (hd : LogHeader) :
    (parseNat hd.rows_sent = some 0 → RatioOfExaminedRows_calc hd = some 0) ∧
    (∀ s e : ℕ, parseNat hd.rows_sent = some s → 0 < s →
      parseNat hd.rows_examined = some e →
      RatioOfExaminedRows_calc hd = some ((e : ℚ) / (s : ℚ))) := by
  constructor
  · intro h
    simp [RatioOfExaminedRows_calc, h]
  · intro s e hs hpos he
    simp [RatioOfExaminedRows_calc, hs, he, hpos, parseFloat_of_parseNat _ _ hs]

theorem ratio_heuristic_safe_witness :
    parseNat (hdrZ.rows_sent) = some 0 ∧ RatioOfExaminedRows_calc hdrZ = some 0 :=
  ⟨by decide, (ratio_heuristic_safe hdrZ).1 (by decide)⟩

/-! ## Claims about ignorable statements -/

theorem dropLit_append (a b : List Char) : dropLit a (a ++ b) = some b := by
  induction a with
  | nil => rfl
  | cons c cs ih => simp [dropLit, ih]

/-- Claim C4: a matched statement that is a bare use-database statement or a
SET-timestamp statement is classified ignorable, and the reassembler never
emits an ignorable statement to the dispatcher, so no heuristic is ever
evaluated on it. -/
theorem ignorable_statements_dropped :
    (∀ db : List Char, '\n' ∉ db → ';' ∉ db →
      isIgnorable ("use ".toList ++ db ++ [';']) = true) ∧
    (∀ ds : List Char, (∀ c ∈ ds, Char.isDigit c) → ds ≠ [] →
      isIgnorable ("SET timestamp=".toList ++ ds ++ [';']) = true) ∧
    (∀ (st : ReState) (line : List Char) (p : LogHeader × List Char),
      p ∈ (processLine st line).2 → isIgnorable p.2 = false) := by
  refine ⟨?_, ?_, ?_⟩
  · intro db hnl hns
    rw [show ("use ".toList ++ db) ++ [';'] = 'u' :: 's' :: 'e' :: ' ' :: (db ++ [';'])
      from rfl]
    simp only [isIgnorable]
    rw [List.dropWhile_cons_of_neg (by decide : ¬ (isWS 'u' = true))]
    rw [show dropLit "use ".toList ('u' :: 's' :: 'e' :: ' ' :: (db ++ [';'])) =
      dropLit [] (db ++ [';']) from rfl]
    simp only [dropLit]
    have hseg : (db ++ [';']).takeWhile (fun c => decide (c ≠ '\n')) = db ++ [';'] := by
      refine List.takeWhile_eq_self_iff.mpr ?_
      intro a ha
      rcases List.mem_append.mp ha with h | h
      · simp only [decide_eq_true_eq]
        intro hEq
        exact hnl (hEq ▸ h)
      · simp only [List.mem_singleton] at h
        simp [h]
    rw [hseg, List.getLast?_append_cons]
    simp
  · intro ds hdig hne
    rw [show ("SET timestamp=".toList ++ ds) ++ [';'] =
      'S' :: 'E' :: 'T' :: ' ' :: 't' :: 'i' :: 'm' :: 'e' :: 's' :: 't' :: 'a' :: 'm' ::
        'p' :: '=' :: (ds ++ [';']) from rfl]
    simp only [isIgnorable]
    rw [List.dropWhile_cons_of_neg (by decide : ¬ (isWS 'S' = true))]
    rw [show dropLit "use ".toList
      ('S' :: 'E' :: 'T' :: ' ' :: 't' :: 'i' :: 'm' :: 'e' :: 's' :: 't' :: 'a' :: 'm' ::
        'p' :: '=' :: (ds ++ [';'])) = none from rfl]
    rw [show dropLit "SET timestamp=".toList
      ('S' :: 'E' :: 'T' :: ' ' :: 't' :: 'i' :: 'm' :: 'e' :: 's' :: 't' :: 'a' :: 'm' ::
        'p' :: '=' :: (ds ++ [';'])) = dropLit [] (ds ++ [';']) from rfl]
    simp only [dropLit]
    rw [List.takeWhile_append_of_pos hdig, List.dropWhile_append_of_pos hdig]
    rw [show ([';'] : List Char).takeWhile Char.isDigit = [] from rfl]
    rw [show ([';'] : List Char).dropWhile Char.isDigit = [';'] from rfl]
    cases ds with
    | nil => exact absurd rfl hne
    | cons c cs => simp
  · intro st line p hp
    simp only [processLine] at hp
    split at hp
    · simp at hp
    · split at hp
      · split at hp
        · simp at hp
        · rcases List.mem_map.mp hp with ⟨q, hq, hpq⟩
          have hqf := (List.mem_filter.mp hq).2
          rw [← hpq]
          simpa using hqf
      · simp at hp

theorem ignorable_statements_dropped_witness :
    ('\n' ∉ "mydb".toList ∧ ';' ∉ "mydb".toList) ∧
    isIgnorable ("use ".toList ++ "mydb".toList ++ [';']) = true :=
  ⟨⟨by decide, by decide⟩,
   ignorable_statements_dropped.1 "mydb".toList (by decide) (by decide)⟩

/-- Claim C10: ignorable-statement matching is case-sensitive although
statement matching is not: the uppercase use statement and the lowercase
SET-timestamp statement are not ignorable, and the uppercase use statement
is matched as a statement and forwarded to the heuristic engine. -/
theorem ignore_patterns_case_sensitive :
    isIgnorable ("use mydb;".toList) = true ∧
    isIgnorable ("USE mydb;".toList) = false ∧
    isIgnorable ("SET timestamp=1356737065;".toList) = true ∧
    isIgnorable ("set timestamp=1356737065;".toList) = false ∧
    queryMatches ("USE mydb;\n".toList) = ["USE mydb;".toList] ∧
    processLine ⟨[], some hdr0⟩ ("USE mydb;\n".toList) =
      (⟨[], some hdr0⟩, [(hdr0, "USE mydb;".toList)]) := by
  decide

/-! ## Claims about statement matching -/

theorem splitSemi_eq_none (s : List Char) (h : ';' ∉ s) : splitSemi s = none := by
  induction s with
  | nil => rfl
  | cons c cs ih =>
    have hc : ¬ c = ';' := by
      intro hEq
      exact h (hEq ▸ List.mem_cons_self c cs)
    have hcs : ';' ∉ cs := fun hm => h (List.mem_cons_of_mem _ hm)
    simp [splitSemi, hc, ih hcs]

theorem splitSemi_pre (s : List Char) :
    ∀ a b : List Char, splitSemi s = some (a, b) → ';' ∉ a := by
  induction s with
  | nil => intro a b h; simp [splitSemi] at h
  | cons c cs ih =>
    intro a b h
    simp only [splitSemi] at h
    by_cases hc : c = ';'
    · rw [if_pos hc] at h
      injection h with h
      injection h with h1 _
      rw [← h1]
      simp
    · rw [if_neg hc] at h
      cases hsp : splitSemi cs with
      | none => rw [hsp] at h; cases h
      | some p =>
        obtain ⟨a1, b1⟩ := p
        rw [hsp] at h
        injection h with h
        injection h with h1 h2
        rw [← h1]
        intro hm
        rcases List.mem_cons.mp hm with hm | hm
        · exact hc hm.symm
        · exact ih a1 b1 hsp hm

theorem finditerAux_eq_nil_of_no_semi (n : ℕ) :
    ∀ (s : List Char) (b : Bool), ';' ∉ s → finditerAux n s b = [] := by
  induction n with
  | zero => intro s b _; rfl
  | succ n ih =>
    intro s b h
    cases s with
    | nil => rfl
    | cons c cs =>
      have hcs : ';' ∉ cs := fun hm => h (List.mem_cons_of_mem _ hm)
      have htm : tryMatchAt (c :: cs) = none := by
        simp [tryMatchAt, splitSemi_eq_none _ h]
      cases b with
      | false => simpa only [finditerAux] using ih cs _ hcs
      | true =>
        simp only [finditerAux, if_pos, htm]
        exact ih cs _ hcs

theorem finditerAux_mem_shape (n : ℕ) :
    ∀ (s : List Char) (b : Bool) (q : List Char),
      q ∈ finditerAux n s b → ∃ xs, q = xs ++ [';'] ∧ ';' ∉ xs := by
  induction n with
  | zero =>
    intro s b q h
    simp [finditerAux] at h
  | succ n ih =>
    intro s b q h
    cases s with
    | nil => simp [finditerAux] at h
    | cons c cs =>
      simp only [finditerAux] at h
      by_cases hb : b = true

      · rw [if_pos hb] at h
        cases htm : tryMatchAt (c :: cs) with
        | none =>
          rw [htm] at h
          exact ih cs _ q h
        | some pr =>
          obtain ⟨cap, rest⟩ := pr
          rw [htm] at h
          rcases List.mem_cons.mp h with hq | hq
          · simp only [tryMatchAt] at htm
            cases hsp : splitSemi (c :: cs) with
            | none => rw [hsp] at htm; cases htm
            | some p =>
              obtain ⟨pre, rest1⟩ := p
              rw [hsp] at htm
              dsimp only at htm
              by_cases hpre : pre = []
              · rw [if_pos hpre] at htm; cases htm
              · rw [if_neg hpre] at htm
                by_cases hrest : rest1 = [] ∨ rest1.head? = some '\n'
                · rw [if_pos hrest] at htm
                  injection htm with htm
                  injection htm with h1 _
                  refine ⟨pre.drop (min (pre.takeWhile isWS).length (pre.length - 1)), ?_, ?_⟩
                  · rw [hq, ← h1]
                  · intro hm
                    exact splitSemi_pre (c :: cs) pre rest1 hsp (List.drop_subset _ _ hm)
                · rw [if_neg hrest] at htm; cases htm
          · exact ih rest false q hq
      · rw [if_neg hb] at h
        exact ih cs _ q h

/-- Claim C3: a statement match consists of the characters up to and
including the next semicolon (the capture ends in a semicolon and contains
no earlier semicolon), possibly spanning line breaks so that a multi-line
statement is captured as one event, and a buffer containing no semicolon
yields no statement match at all. -/
theorem statement_capture_semantics :
    (∀ s : List Char, ';' ∉ s → queryMatches s = []) ∧
    (∀ s q : List Char, q ∈ queryMatches s → ∃ xs, q = xs ++ [';'] ∧ ';' ∉ xs) ∧
    queryMatches ("SELECT foo FROM bar\nWHERE x = 2;".toList) =
      ["SELECT foo FROM bar\nWHERE x = 2;".toList] :=
  ⟨fun s h => finditerAux_eq_nil_of_no_semi _ s true h,
   fun s q h => finditerAux_mem_shape _ s true q h,
   by decide⟩

theorem statement_capture_semantics_witness :
    ';' ∉ ("SELECT foo FROM bar\nWHERE x = 2".toList) ∧
    queryMatches ("SELECT foo FROM bar\nWHERE x = 2".toList) = [] :=
  ⟨by decide, statement_capture_semantics.1 ("SELECT foo FROM bar\nWHERE x = 2".toList) (by decide)⟩

/-! ## Claims about the dispatcher -/

theorem levelRank_le_four (lv : String) (r : ℕ) (h : levelRank lv = some r) : r ≤ 4 := by
  simp only [levelRank, notificationLevels, List.lookup] at h
  repeat' split at h
  all_goals (cases h <;> omega)

theorem processEvent_spec (θ : ℕ) (hd : LogHeader) (ev : List Char) :
    ∀ hs : List (String × (LogHeader → List Char → Option String)),
      (∀ p ∈ hs, ∀ lv, p.2 hd ev = some lv → (levelRank lv).isSome = true) →
      ∃ l, processEvent hs θ hd ev = some l ∧
        ∀ n lv, ((n, lv) ∈ l ↔
          ∃ h, (n, h) ∈ hs ∧ h hd ev = some lv ∧ ∃ r, levelRank lv = some r ∧ θ ≤ r) := by
  intro hs
  induction hs with
  | nil =>
    intro _
    exact ⟨[], rfl, by simp⟩
  | cons p rest ih =>
    intro hv
    obtain ⟨n0, h0⟩ := p
    obtain ⟨l, hl, hiff⟩ := ih (fun q hq lv hlv => hv q (List.mem_cons_of_mem _ hq) lv hlv)
    cases hh : h0 hd ev with
    | none =>
      refine ⟨l, by simp only [processEvent, hh, hl], ?_⟩
      intro n lv
      rw [hiff n lv]
      constructor
      · rintro ⟨h, hmem, hres, hr⟩
        exact ⟨h, List.mem_cons_of_mem _ hmem, hres, hr⟩
      · rintro ⟨h, hmem, hres, hr⟩
        rcases List.mem_cons.mp hmem with hEq | hmem2
        · rw [Prod.mk.injEq] at hEq
          obtain ⟨hn, hf⟩ := hEq
          rw [hf, hh] at hres
          cases hres
        · exact ⟨h, hmem2, hres, hr⟩
    | some lv0 =>
      have hsome := hv (n0, h0) (List.mem_cons_self _ _) lv0 hh
      obtain ⟨r0, hr0⟩ := Option.isSome_iff_exists.mp hsome
      by_cases hθ : θ ≤ r0
      · refine ⟨(n0, lv0) :: l, by simp only [processEvent, hh, hr0, hl, if_pos hθ], ?_⟩
        intro n lv
        constructor
        · intro hm
          rcases List.mem_cons.mp hm with hEq | hm2
          · rw [Prod.mk.injEq] at hEq
            obtain ⟨hn, hlv⟩ := hEq
            subst hn
            subst hlv
            exact ⟨h0, List.mem_cons_self _ _, hh, r0, hr0, hθ⟩
          · obtain ⟨h, hmem, hres, hr⟩ := (hiff n lv).mp hm2
            exact ⟨h, List.mem_cons_of_mem _ hmem, hres, hr⟩
        · rintro ⟨h, hmem, hres, hr⟩
          rcases List.mem_cons.mp hmem with hEq | hmem2
          · rw [Prod.mk.injEq] at hEq
            obtain ⟨hn, hf⟩ := hEq
            rw [hf, hh] at hres
            injection hres with hlv
            subst hn
            rw [← hlv]
            exact List.mem_cons_self _ _
          · exact List.mem_cons_of_mem _ ((hiff n lv).mpr ⟨h, hmem2, hres, hr⟩)
      · refine ⟨l, by simp only [processEvent, hh, hr0, hl, if_neg hθ], ?_⟩
        intro n lv
        rw [hiff n lv]
        constructor
        · rintro ⟨h, hmem, hres, hr⟩
          exact ⟨h, List.mem_cons_of_mem _ hmem, hres, hr⟩
        · rintro ⟨h, hmem, hres, hr⟩
          rcases List.mem_cons.mp hmem with hEq | hmem2
          · rw [Prod.mk.injEq] at hEq
            obtain ⟨hn, hf⟩ := hEq
            rw [hf, hh] at hres
            injection hres with hlv
            obtain ⟨r, hr1, hr2⟩ := hr
            rw [← hlv, hr0] at hr1
            injection hr1 with hr1
            rw [← hr1] at hr2
            exact absurd hr2 hθ
          · exact ⟨h, hmem2, hres, hr⟩

/-- Claim C6: for every (header, event) pair, every registered heuristic is
evaluated and a finding is forwarded for exactly those heuristics whose
result is a level at or above the configured minimum rank, with no early
exit; with the threshold at rank 3 (error), every forwarded finding has rank
3 or 4 and everything below rank 3 is suppressed. -/
theorem dispatcher_forwards_all_qualifying
    (hs : List (String × (LogHeader → List Char → Option String)))
    (θ : ℕ) (hd : LogHeader) (ev : List Char)
    (hv : ∀ p ∈ hs, ∀ lv, p.2 hd ev = some lv → (levelRank lv).isSome = true) :
    ∃ l, processEvent hs θ hd ev = some l ∧
      (∀ n lv, ((n, lv) ∈ l ↔
        ∃ h, (n, h) ∈ hs ∧ h hd ev = some lv ∧ ∃ r, levelRank lv = some r ∧ θ ≤ r)) ∧
      (θ = 3 → ∀ n lv, (n, lv) ∈ l → ∃ r, levelRank lv = some r ∧ (r = 3 ∨ r = 4)) := by
  obtain ⟨l, hl, hiff⟩ := processEvent_spec θ hd ev hs hv
  refine ⟨l, hl, hiff, ?_⟩
  rintro rfl n lv hm
  obtain ⟨h, _, _, r, hr1, hr2⟩ := (hiff n lv).mp hm
  have hle := levelRank_le_four lv r hr1
  exact ⟨r, hr1, by omega⟩

/-- A concrete register of heuristics for the dispatcher witness: one firing
at error, one at debug, one returning no finding. -/
def heurListW : List (String × (LogHeader → List Char → Option String)) :=
  [("A", fun _ _ => some "error"), ("B", fun _ _ => some "debug"),
   ("C", fun _ _ => none)]

theorem dispatcher_forwards_all_qualifying_witness :
    (∀ p ∈ heurListW, ∀ lv, p.2 hdr0 [] = some lv → (levelRank lv).isSome = true) ∧
    ∃ l, processEvent heurListW 3 hdr0 [] = some l ∧
      (∀ n lv, ((n, lv) ∈ l ↔
        ∃ h, (n, h) ∈ heurListW ∧ h hdr0 [] = some lv ∧
          ∃ r, levelRank lv = some r ∧ 3 ≤ r)) ∧
      ((3 : ℕ) = 3 → ∀ n lv, (n, lv) ∈ l →
        ∃ r, levelRank lv = some r ∧ (r = 3 ∨ r = 4)) := by
  have hv : ∀ p ∈ heurListW, ∀ lv, p.2 hdr0 [] = some lv → (levelRank lv).isSome = true := by
    intro p hp lv hlv
    rcases List.mem_cons.mp hp with hEq | hp
    · rw [hEq] at hlv
      injection hlv with hlv
      rw [← hlv]
      rfl
    rcases List.mem_cons.mp hp with hEq | hp
    · rw [hEq] at hlv
      injection hlv with hlv
      rw [← hlv]
      rfl
    rcases List.mem_cons.mp hp with hEq | hp
    · rw [hEq] at hlv
      cases hlv
    · cases hp
  exact ⟨hv, dispatcher_forwards_all_qualifying heurListW 3 hdr0 [] hv⟩

/-! ## Claim about well-formedness of header captures -/

theorem parseNatCap_parseNat (s cap r : List Char)
    (h : parseNatCap s = some (cap, r)) : ∃ n, parseNat cap = some n := by
  simp only [parseNatCap] at h
  split_ifs at h with h1
  simp only [Option.some.injEq, Prod.mk.injEq] at h
  obtain ⟨hcap, hr⟩ := h
  subst hcap
  have hall : (s.takeWhile Char.isDigit).all Char.isDigit = true := by
    rw [List.all_eq_true]
    intro a ha
    exact List.mem_takeWhile_imp ha
  exact ⟨natOfDigits (s.takeWhile Char.isDigit), by simp [parseNat, h1, hall]⟩

theorem parseDecCap_parseFloat (s cap r : List Char)
    (h : parseDecCap s = some (cap, r)) :
    ∃ q, parseFloat cap = some q ∧ 0 ≤ q := by
  simp only [parseDecCap] at h
  cases hdw : s.dropWhile Char.isDigit with
  | nil =>
    rw [hdw] at h
    dsimp only at h
    split_ifs at h
  | cons c r2 =>
    rw [hdw] at h
    dsimp only at h
    split_ifs at h with h1 hc h2
    simp only [Option.some.injEq, Prod.mk.injEq] at h
    obtain ⟨hcap, hr⟩ := h
    subst hcap
    have hall1 : ∀ a ∈ s.takeWhile Char.isDigit, Char.isDigit a :=
      fun a ha => List.mem_takeWhile_imp ha
    have hall2 : ∀ a ∈ r2.takeWhile Char.isDigit, Char.isDigit a :=
      fun a ha => List.mem_takeWhile_imp ha
    refine ⟨(natOfDigits (s.takeWhile Char.isDigit) : ℚ) +
      (natOfDigits (r2.takeWhile Char.isDigit) : ℚ) /
        (10 : ℚ) ^ (r2.takeWhile Char.isDigit).length, ?_, ?_⟩
    · simp only [parseFloat, List.takeWhile_append_of_pos hall1,
        List.dropWhile_append_of_pos hall1]
      rw [List.takeWhile_cons_of_neg (by decide : ¬ (Char.isDigit '.' = true))]
      rw [List.dropWhile_cons_of_neg (by decide : ¬ (Char.isDigit '.' = true))]
      rw [List.append_nil]
      rw [if_neg h1]
      have hb : (r2.takeWhile Char.isDigit).all Char.isDigit = true := by
        rw [List.all_eq_true]
        exact hall2
      simp [hb]
    · positivity

theorem findHeaderInLines_stats :
    ∀ (ls : List (List Char)) (hd : LogHeader), findHeaderInLines ls = some hd →
      ∃ l, parseStatsLine l =
        some (hd.query_seconds, hd.lock_time, hd.rows_sent, hd.rows_examined) := by
  intro ls
  induction ls with
  | nil => intro hd h; exact Option.noConfusion h
  | cons l1 tail ih =>
    intro hd h
    cases tail with
    | nil => exact Option.noConfusion h
    | cons l2 tail2 =>
      cases tail2 with
      | nil => exact Option.noConfusion h
      | cons l3 rest =>
        rw [findHeaderInLines.eq_def] at h
        dsimp only at h
        split at h
        · rename_i dt uh caps h1 h2 h3
          injection h with h
          refine ⟨l3, ?_⟩
          rw [h3, ← h]
        · exact ih hd h

theorem parseStatsLine_caps (l qs lt rs rx : List Char)
    (h : parseStatsLine l = some (qs, lt, rs, rx)) :
    (∃ s r, parseDecCap s = some (qs, r)) ∧
    (∃ s r, parseDecCap s = some (lt, r)) ∧
    (∃ s r, parseNatCap s = some (rs, r)) ∧
    (∃ s r, parseNatCap s = some (rx, r)) := by
  simp only [parseStatsLine, Option.bind_eq_some] at h
  obtain ⟨r1, h1, p1, h2, r3, h3, r4, h4, p2, h5, r6, h6, r7, h7, p3, h8,
    r9, h9, r10, h10, p4, h11, h⟩ := h
  split_ifs at h
  simp only [Option.some.injEq, Prod.mk.injEq] at h
  obtain ⟨e1, e2, e3, e4⟩ := h
  refine ⟨⟨r1, p1.2, ?_⟩, ⟨r4, p2.2, ?_⟩, ⟨r7, p3.2, ?_⟩, ⟨r10, p4.2, ?_⟩⟩
  · rw [← e1]; exact h2
  · rw [← e2]; exact h5
  · rw [← e3]; exact h8
  · rw [← e4]; exact h11

/-- Claim C8: whenever the header pattern matches a buffer, the four numeric
captures are well-formed, so the numeric conversion performed by each of the
five heuristics on such a header succeeds with a non-negative value — a
heuristic is never handed a partially-parsed header. -/
theorem header_captures_well_formed (s : List Char) (hd : LogHeader)
    (h : headerSearch s = some hd) :
    (∃ q, SlowQuery_calc hd = some q ∧ 0 ≤ q) ∧
    (∃ q, TooManyRowsReturned_calc hd = some q ∧ 0 ≤ q) ∧
    (∃ q, TooManyRowsExamined_calc hd = some q ∧ 0 ≤ q) ∧
    (∃ q, RatioOfExaminedRows_calc hd = some q ∧ 0 ≤ q) ∧
    (∃ q, LongLockTime_calc hd = some q ∧ 0 ≤ q) := by
  obtain ⟨l, hl⟩ := findHeaderInLines_stats (splitLines s) hd h
  obtain ⟨⟨s1, r1, hqs⟩, ⟨s2, r2, hlt⟩, ⟨s3, r3, hrs⟩, ⟨s4, r4, hrx⟩⟩ :=
    parseStatsLine_caps l hd.query_seconds hd.lock_time hd.rows_sent hd.rows_examined hl
  obtain ⟨qqs, hqs2, hqs3⟩ := parseDecCap_parseFloat s1 _ r1 hqs
  obtain ⟨qlt, hlt2, hlt3⟩ := parseDecCap_parseFloat s2 _ r2 hlt
  obtain ⟨nrs, hrs2⟩ := parseNatCap_parseNat s3 _ r3 hrs
  obtain ⟨nrx, hrx2⟩ := parseNatCap_parseNat s4 _ r4 hrx
  refine ⟨⟨qqs, hqs2, hqs3⟩, ⟨(nrs : ℚ), ?_, by positivity⟩,
    ⟨(nrx : ℚ), ?_, by positivity⟩, ?_, ⟨qlt, hlt2, hlt3⟩⟩
  · simp [TooManyRowsReturned_calc, hrs2]
  · simp [TooManyRowsExamined_calc, hrx2]
  · by_cases hpos : 0 < nrs
    · refine ⟨(nrx : ℚ) / (nrs : ℚ), ?_, by positivity⟩
      simp [RatioOfExaminedRows_calc, hrs2, hrx2, hpos,
        parseFloat_of_parseNat _ _ hrs2]
    · refine ⟨0, ?_, le_refl 0⟩
      simp [RatioOfExaminedRows_calc, hrs2, hpos]

theorem header_captures_well_formed_witness :
    headerSearch (exTwoLines ++ exStatsLine) = some hdr0 ∧
    ((∃ q, SlowQuery_calc hdr0 = some q ∧ 0 ≤ q) ∧
     (∃ q, TooManyRowsReturned_calc hdr0 = some q ∧ 0 ≤ q) ∧
     (∃ q, TooManyRowsExamined_calc hdr0 = some q ∧ 0 ≤ q) ∧
     (∃ q, RatioOfExaminedRows_calc hdr0 = some q ∧ 0 ≤ q) ∧
     (∃ q, LongLockTime_calc hdr0 = some q ∧ 0 ≤ q)) :=
  ⟨by decide, header_captures_well_formed (exTwoLines ++ exStatsLine) hdr0 (by decide)⟩

end SlowQueries
